import Mathlib

/-!
Verification of the Advanced-AI-Analyst repository: the Insight Generation and
Conversational Context Engine (Chat Context Manager, Statistical Insight
Extractor, Narrative Insight Synthesizer) and the frontend pieces present in
the repository (the analytics dashboard and the upload proxy route).

The backend Python services (`chat_service.py`, `langgraph_service.py`,
`data_analysis_service.py`, `supabase_service.py`, `main.py`) are referenced
by the repository's README but their source is not part of the repository
snapshot; where a definition embeds one of them it is modelled from the
specification's words and marked as such in its doc comment.  The frontend
JavaScript (the `AnalyticsDashboard` component and the upload `POST` route
handler) is embedded directly from its source.
-/

namespace AIAnalyst

/-! ## Core data model

Modelled from the spec (§3 DATA MODEL) and the SQL schema declared in the
repository README (`uploaded_files`, `file_analyses`, `chat_history`).
Time is measured in whole days as a natural number; identifiers are naturals.
-/

/-- Status of an `InsightRecord` / `file_analyses` row. -/
inductive AnalysisStatus where
  | pending
  | processing
  | ready
  | failed
deriving Repr, DecidableEq

/-- Modelled from the spec: `InsightRecord` (§3) backing the `file_analyses`
table of the README schema.  `insights` is the structured payload (held
abstractly as its serialized form), `errorMsg` the captured provider error. -/
structure InsightRecord where
  dataset_id : Nat
  status : AnalysisStatus
  raw_text : String
  description : String
  insights : Option String
  errorMsg : Option String
  created_at : Nat
deriving Repr, DecidableEq

/-- Modelled from the spec: `ConversationTurn` (§3) backing the
`chat_history` table of the README schema. -/
structure ConversationTurn where
  dataset_id : Nat
  analysis_id : Nat
  question : String
  answer : String
  created_at : Nat
deriving Repr, DecidableEq

/-- Per-dataset storage cap on conversation turns (spec §3, §4.4: 100). -/
def STORAGE_CAP : Nat := 100

/-- Retention horizon in days (spec §3, §4.4: 30 days). -/
def RETENTION_DAYS : Nat := 30

/-- A turn is within the retention horizon at time `now` when it is not older
than `RETENTION_DAYS` days (README purge deletes rows with
`created_at < NOW() - INTERVAL '30 days'`). -/
def withinRetention (now : Nat) (t : ConversationTurn) : Bool :=
  decide (now ≤ t.created_at + RETENTION_DAYS)

/-- Modelled from the spec: the persisted engine state (§6 persisted layout) —
the per-dataset analysis records and the per-dataset turn log, standing for
the `file_analyses` and `chat_history` collections. -/
structure EngineState where
  analyses : List InsightRecord
  turns : List ConversationTurn
deriving Repr, DecidableEq

/-- The empty initial engine state. -/
def EngineState.empty : EngineState := ⟨[], []⟩

/-- The stored turns of one dataset, in storage order. -/
def turnsFor (s : EngineState) (d : Nat) : List ConversationTurn :=
  s.turns.filter (fun t => t.dataset_id == d)

/-- Modelled from the spec: `getAnalysis` returns the latest (active)
`InsightRecord` of a dataset (§6). -/
def getAnalysis (s : EngineState) (d : Nat) : Option InsightRecord :=
  s.analyses.find? (fun r => r.dataset_id == d)

/-! ## Chat Context Manager (spec §4.4)

Modelled from the spec: the backend `chat_service.py` / `supabase_service.py`
implementation is not in the repository snapshot; the operations below follow
§4.4 of the specification word by word.
-/

/-- Errors surfaced by `answerQuestion` (spec §4.4, §7). -/
inductive ChatError where
  | analysisNotReady
  | upstream (msg : String)
deriving Repr, DecidableEq

/-- Remove the first `k` turns of dataset `d` from a stored turn list,
leaving every other dataset's turns untouched (FIFO eviction, spec §4.4
step 5). -/
def removeOldest (d : Nat) : List ConversationTurn → Nat → List ConversationTurn
  | l, 0 => l
  | [], _ + 1 => []
  | t :: ts, k + 1 =>
    if t.dataset_id == d then removeOldest d ts k
    else t :: removeOldest d ts (k + 1)

/-- Modelled from the spec: step 5 of `answerQuestion` (§4.4) — if the stored
turn count for the dataset exceeds the cap, evict the oldest turns beyond the
cap as a side effect of the write. -/
def enforceCap (turns : List ConversationTurn) (d : Nat) : List ConversationTurn :=
  if (turns.filter (fun t => t.dataset_id == d)).length ≤ STORAGE_CAP then turns
  else
    removeOldest d turns
      ((turns.filter (fun t => t.dataset_id == d)).length - STORAGE_CAP)

/-- Modelled from the spec: `answerQuestion(dataset_id, question)` (§4.4).
`now` is the current day; `llm` is the outcome of the single language-model
backend invocation.  Returns the (possibly updated) state together with the
new turn or a typed error; on any error the state is returned unchanged
(spec §5: partial failures roll back, no new turn). -/
def answerQuestion (s : EngineState) (d : Nat) (q : String) (now : Nat)
    (llm : Except String String) : EngineState × Except ChatError ConversationTurn :=
  match getAnalysis s d with
  | none => (s, Except.error ChatError.analysisNotReady)
  | some rec =>
    if rec.status = AnalysisStatus.ready then
      match llm with
      | Except.error e => (s, Except.error (ChatError.upstream e))
      | Except.ok ans =>
        let turn : ConversationTurn :=
          ⟨d, rec.created_at, q, ans, now⟩
        ({ s with turns := enforceCap (s.turns ++ [turn]) d }, Except.ok turn)
    else (s, Except.error ChatError.analysisNotReady)

/-- Modelled from the spec: `getHistory` (§4.4, §6) — the dataset's turns,
age-filtered at read time (retention horizon, regardless of physical purge)
and capped, ordered newest-last. -/
def getHistory (s : EngineState) (d : Nat) (now : Nat) : List ConversationTurn :=
  let live := (turnsFor s d).filter (withinRetention now)
  live.drop (live.length - STORAGE_CAP)

/-- Modelled from the README's `cleanup_chat_history` SQL function: the
periodic purge physically deletes turns older than 30 days. -/
def purgeExpired (s : EngineState) (now : Nat) : EngineState :=
  { s with turns := s.turns.filter (withinRetention now) }

/-! ## Narrative Insight Synthesizer and `runAnalysis` (spec §4.3, §6)

Modelled from the spec: `langgraph_service.py` is not in the repository
snapshot; the pipeline below follows §4.3 — one backend call, one retry on
failure, then a `failed` record with the provider error captured.
-/

/-- Modelled from the spec: the backend call with its single internal retry
(§4.3, §7).  `a1` is the initial call's outcome, `a2` the retry's; the retry
happens only when the initial call fails. -/
def synthesize (a1 a2 : Except String String) : Except String String :=
  match a1 with
  | Except.ok text => Except.ok text
  | Except.error _ => a2

/-- Modelled from the spec: `runAnalysis` (§4.3, §6) — produces the new
active `InsightRecord` for the dataset from the synthesizer outcome.  On
success the status is `ready` with the insights payload set; on exhausted
retries the status is `failed` with the provider error captured and no
insights payload. -/
def analysisResult (d : Nat) (raw desc : String) (now : Nat)
    (a1 a2 : Except String String) : InsightRecord :=
  match synthesize a1 a2 with
  | Except.ok payload =>
    ⟨d, AnalysisStatus.ready, raw, desc, some payload, none, now⟩
  | Except.error e =>
    ⟨d, AnalysisStatus.failed, raw, desc, none, some e, now⟩

/-- Modelled from the spec: `runAnalysis` supersedes (does not append to) the
prior record of the dataset (§3, §6: idempotent-by-supersede). -/
def runAnalysis (s : EngineState) (d : Nat) (raw desc : String) (now : Nat)
    (a1 a2 : Except String String) : EngineState :=
  { s with
    analyses :=
      analysisResult d raw desc now a1 a2 ::
        s.analyses.filter (fun r => !(r.dataset_id == d)) }

/-- Modelled from the spec: the status history of one analysis run —
`pending` on creation, `processing` while the pipeline runs, then the
terminal status (§3: pending→processing→ready | failed). -/
def runStatusTrace (a1 a2 : Except String String) : List AnalysisStatus :=
  [AnalysisStatus.pending, AnalysisStatus.processing,
    (analysisResult 0 "" "" 0 a1 a2).status]

/-- The legal status transitions of an `InsightRecord` (spec §3). -/
inductive StatusStep : AnalysisStatus → AnalysisStatus → Prop where
  | start : StatusStep AnalysisStatus.pending AnalysisStatus.processing
  | succeed : StatusStep AnalysisStatus.processing AnalysisStatus.ready
  | fail : StatusStep AnalysisStatus.processing AnalysisStatus.failed

/-! ## Dataset deletion (README `DELETE /files/{file_id}`, spec §6) -/

/-- Modelled from the spec and the README schema's `ON DELETE CASCADE`
foreign keys: `deleteDataset` removes the dataset's analysis records and all
of its conversation turns in one step. -/
def deleteDataset (s : EngineState) (d : Nat) : EngineState :=
  ⟨s.analyses.filter (fun r => !(r.dataset_id == d)),
    s.turns.filter (fun t => !(t.dataset_id == d))⟩

/-! ## Reachable engine states

Modelled from the spec: the states the engine can be in after any sequence of
operations from the empty initial state, with a monotone clock (a write at
time `now'` happens no earlier than every previous write).
-/

/-- Engine states reachable at clock time `now` by any sequence of
`runAnalysis`, `answerQuestion`, `deleteDataset` and periodic-purge calls
from the empty state. -/
inductive Reachable : Nat → EngineState → Prop where
  | init : Reachable 0 EngineState.empty
  | run {now s} (now' : Nat) (d : Nat) (raw desc : String)
      (a1 a2 : Except String String) :
      Reachable now s → now ≤ now' →
      Reachable now' (runAnalysis s d raw desc now' a1 a2)
  | answer {now s} (now' : Nat) (d : Nat) (q : String)
      (llm : Except String String) :
      Reachable now s → now ≤ now' →
      Reachable now' (answerQuestion s d q now' llm).1
  | delete {now s} (d : Nat) :
      Reachable now s → Reachable now (deleteDataset s d)
  | purge {now s} (now' : Nat) :
      Reachable now s → now ≤ now' → Reachable now' (purgeExpired s now')

/-! ## Statistical Insight Extractor: top-N entities (spec §4.2)

Modelled from the spec: `data_analysis_service.py` is not in the repository
snapshot; the aggregation below follows §4.2 — group-by key, rank by summed
metric descending, ties broken by lexical order of the key.
-/

/-- The distinct group keys of a row list. -/
def groupKeys (rows : List (String × Int)) : List String :=
  (rows.map Prod.fst).dedup

/-- The summed metric of one group key. -/
def groupSum (rows : List (String × Int)) (k : String) : Int :=
  ((rows.filter (fun r => r.fst == k)).map Prod.snd).sum

/-- Lexical (dictionary) order on character lists. -/
def charListLE : List Char → List Char → Bool
  | [], _ => true
  | _ :: _, [] => false
  | a :: as, b :: bs =>
    if a < b then true else if b < a then false else charListLE as bs

/-- Lexical order on keys. -/
def strLE (s t : String) : Bool :=
  charListLE s.data t.data

/-- Ranking order used for top-N entities: larger summed metric first, ties
broken by lexical order of the key (spec §4.2). -/
def rankLE (a b : String × Int) : Bool :=
  b.snd < a.snd || (a.snd == b.snd && strLE a.fst b.fst)

/-- Modelled from the spec: the top-N-entities section — group rows by key,
sum the metric per group, sort descending by the sum with lexical tie-break,
and keep the first `n` groups (§4.2). -/
def topEntities (n : Nat) (rows : List (String × Int)) : List (String × Int) :=
  (List.insertionSort (fun a b => rankLE a b = true)
    ((groupKeys rows).map (fun k => (k, groupSum rows k)))).take n

/-! ## Per-dataset analysis execution lock (spec §5)

Modelled from the spec: analysis runs for one dataset are mutually exclusive;
a second request while one is in flight is rejected with
`AnalysisInProgressError` rather than silently duplicated, and only the
holder of the lock writes the terminal record.
-/

/-- An event of a concurrent analysis execution for one dataset: client `c`
requests the run, or the in-flight run of client `c` completes with a
terminal status. -/
inductive RunEvent where
  | start (c : Nat)
  | finish (c : Nat) (outcome : AnalysisStatus)
deriving Repr, DecidableEq

/-- Modelled from the spec: the per-dataset lock state — who holds the
execution lock, the terminal records written, and the clients rejected with
`AnalysisInProgressError` (§5). -/
structure AnalysisLock where
  holder : Option Nat
  terminal : List AnalysisStatus
  rejected : List Nat
deriving Repr, DecidableEq

/-- The idle lock state: no run in flight, nothing written. -/
def AnalysisLock.idle : AnalysisLock := ⟨none, [], []⟩

/-- Modelled from the spec: one step of the per-dataset execution lock (§5).
A `start` acquires the free lock or is rejected with
`AnalysisInProgressError`; a `finish` by the holder writes exactly one
terminal record and releases the lock, and is ignored otherwise. -/
def lockStep (st : AnalysisLock) (e : RunEvent) : AnalysisLock :=
  match e with
  | RunEvent.start c =>
    match st.holder with
    | none => { st with holder := some c }
    | some _ => { st with rejected := c :: st.rejected }
  | RunEvent.finish c outcome =>
    if st.holder = some c then
      { st with holder := none, terminal := outcome :: st.terminal }
    else st

/-- Run an interleaving of analysis events from the idle lock state. -/
def lockRun (es : List RunEvent) : AnalysisLock :=
  es.foldl lockStep AnalysisLock.idle

/-! ## Analytics dashboard (frontend `AnalyticsDashboard` component)

Embedded from the source: `src/unnamed/part_001`, the `AnalyticsDashboard`
React component.  Each section of the insights payload is a JavaScript
property that may be absent (`none`) or present with a given truthiness; the
component renders a section only behind its `&&` guard.
-/

/-- A JavaScript value as far as the dashboard's guards observe it: its
truthiness. -/
structure JsValue where
  truthy : Bool
deriving Repr, DecidableEq

/-- Truthiness of a possibly-absent JavaScript property (`undefined` is
falsy). -/
def jsTruthy (v : Option JsValue) : Bool :=
  match v with
  | none => false
  | some x => x.truthy

/-- The insights payload as consumed by `AnalyticsDashboard`: the section
properties it reads from `fileAnalytics`, each independently optional. -/
structure FileAnalytics where
  total_revenue : Option JsValue
  sales_metrics : Option JsValue
  top_customers : Option JsValue
  customer_metrics : Option JsValue
  top_products : Option JsValue
  regional_performance : Option JsValue
  top_sales_reps : Option JsValue
deriving Repr, DecidableEq

/-- The child components `AnalyticsDashboard` can render. -/
inductive Rendered where
  | revenue
  | customers
  | products
  | region
  | salesPerformance
  | aiGeneratedInsights
deriving Repr, DecidableEq

/-- Embedded from `src/unnamed/part_001` (`AnalyticsDashboard`): renders
nothing when `fileAnalytics` is absent; otherwise renders `Revenue` when
`total_revenue || sales_metrics` is truthy, each entity section behind its
own guard, and `AIGeneratedInsigts` unconditionally. -/
def AnalyticsDashboard (fileAnalytics : Option FileAnalytics) : List Rendered :=
  match fileAnalytics with
  | none => []
  | some fa =>
    (if jsTruthy fa.total_revenue || jsTruthy fa.sales_metrics then
      [Rendered.revenue] else []) ++
    (if jsTruthy fa.top_customers then [Rendered.customers] else []) ++
    (if jsTruthy fa.top_products then [Rendered.products] else []) ++
    (if jsTruthy fa.regional_performance then [Rendered.region] else []) ++
    (if jsTruthy fa.top_sales_reps then [Rendered.salesPerformance] else []) ++
    [Rendered.aiGeneratedInsights]

/-! ## Upload proxy route (frontend `POST` handler)

Embedded from the source: `src/unnamed/part_001`, the `export async function
POST(request)` route handler that proxies uploads to the backend.
-/

/-- A response body: `errorObj msg` stands for the JSON object with a single
`error` field holding `msg`; `json data` stands for the forwarded backend
JSON. -/
inductive RespBody where
  | errorObj (msg : String)
  | json (data : String)
deriving Repr, DecidableEq

/-- An HTTP response produced by the route handler. -/
structure HttpResponse where
  status : Nat
  body : RespBody
deriving Repr, DecidableEq

/-- The backend `fetch` outcome as the handler observes it. -/
structure BackendResult where
  ok : Bool
  status : Nat
  jsonBody : Except String String
deriving Repr

/-- Truthiness of `request.headers.get("authorization")`: `null` (absent) and
the empty string are falsy. -/
def tokenTruthy (authorization : Option String) : Bool :=
  match authorization with
  | none => false
  | some s => !s.isEmpty

/-- The message of the `Error` thrown on a non-ok backend response. -/
def httpErrorMsg (status : Nat) : String :=
  "HTTP error! status: " ++ toString status

/-- Embedded from `src/unnamed/part_001` (`POST`): checks the authorization
header, then the `file` form entry, and only then forwards to the backend;
every thrown error is caught and returned as a 500 with its message.  The
second component records whether the request was forwarded to the backend.
`formData` is the outcome of `request.formData()` (it can throw), holding the
possibly-absent `file` entry; `backend` is the outcome of the `fetch`. -/
def uploadPOST (authorization : Option String)
    (formData : Except String (Option JsValue))
    (backend : Except String BackendResult) : HttpResponse × Bool :=
  if !tokenTruthy authorization then
    (⟨401, RespBody.errorObj "Unauthorized"⟩, false)
  else
    match formData with
    | Except.error e => (⟨500, RespBody.errorObj e⟩, false)
    | Except.ok file =>
      if !jsTruthy file then
        (⟨400, RespBody.errorObj "No file uploaded"⟩, false)
      else
        match backend with
        | Except.error e => (⟨500, RespBody.errorObj e⟩, true)
        | Except.ok r =>
          if !r.ok then (⟨500, RespBody.errorObj (httpErrorMsg r.status)⟩, true)
          else
            match r.jsonBody with
            | Except.error e => (⟨500, RespBody.errorObj e⟩, true)
            | Except.ok data => (⟨200, RespBody.json data⟩, true)

/-! ## Theorems -/

/-- Helper: the read-time retention filter commutes with the physical purge:
purging first does not change what `getHistory` returns. -/
theorem getHistory_purge_invariant (s : EngineState) (d now : Nat) :
    getHistory (purgeExpired s now) d now = getHistory s d now := by
  have key : (turnsFor (purgeExpired s now) d).filter (withinRetention now) =
      (turnsFor s d).filter (withinRetention now) := by
    simp only [turnsFor, purgeExpired, List.filter_filter]
    exact List.filter_congr (fun t _ => by
      cases h1 : withinRetention now t <;> cases h2 : (t.dataset_id == d) <;> rfl)
  simp only [getHistory]
  rw [key]

/-- C2: for every dataset and point in time, `getHistory` excludes every
turn whose `created_at` is older than 30 days before `now` — over every
state, so regardless of whether the physical purge job has run — and running
the purge first does not change the result of `getHistory`. -/
theorem getHistory_read_time_retention (s : EngineState) (d now : Nat)
    (t : ConversationTurn) (ht : t ∈ getHistory s d now) :
    now ≤ t.created_at + RETENTION_DAYS ∧
      getHistory (purgeExpired s now) d now = getHistory s d now := by
  refine ⟨?_, getHistory_purge_invariant s d now⟩
  have h1 : t ∈ (turnsFor s d).filter (withinRetention now) :=
    List.mem_of_mem_drop ht
  have h2 := (List.mem_filter.mp h1).2
  simpa [withinRetention] using h2

/-- Witness for C2: a concrete state whose stored turn log holds a fresh and
an expired turn; `getHistory` returns the fresh one, and the theorem applies
to it. -/
theorem getHistory_read_time_retention_witness :
    40 ≤ (⟨5, 0, "q", "a", 35⟩ : ConversationTurn).created_at + RETENTION_DAYS ∧
      getHistory (purgeExpired ⟨[], [⟨5, 0, "q0", "a0", 1⟩, ⟨5, 0, "q", "a", 35⟩]⟩ 40) 5 40 =
        getHistory ⟨[], [⟨5, 0, "q0", "a0", 1⟩, ⟨5, 0, "q", "a", 35⟩]⟩ 5 40 :=
  getHistory_read_time_retention
    ⟨[], [⟨5, 0, "q0", "a0", 1⟩, ⟨5, 0, "q", "a", 35⟩]⟩ 5 40
    ⟨5, 0, "q", "a", 35⟩ (by decide)

/-- C3: `answerQuestion` fails with the not-ready precondition error whenever
the dataset has no `InsightRecord` in the `ready` state — in particular when
no analysis exists at all — and in that case the state (hence the turn log)
is returned unchanged: no turn is persisted. -/
theorem answerQuestion_not_ready (s : EngineState) (d : Nat) (q : String)
    (now : Nat) (llm : Except String String)
    (h : ∀ r, getAnalysis s d = some r → r.status ≠ AnalysisStatus.ready) :
    answerQuestion s d q now llm = (s, Except.error ChatError.analysisNotReady) := by
  cases hA : getAnalysis s d with
  | none => simp [answerQuestion, hA]
  | some rec => simp [answerQuestion, hA, h rec hA]

/-- Witness for C3: on the empty state (no `runAnalysis` ever called),
`answerQuestion` fails with `analysisNotReady` and persists nothing. -/
theorem answerQuestion_not_ready_witness :
    answerQuestion EngineState.empty 3 "what are the trends?" 7 (Except.ok "a") =
      (EngineState.empty, Except.error ChatError.analysisNotReady) :=
  answerQuestion_not_ready EngineState.empty 3 "what are the trends?" 7
    (Except.ok "a")
    (fun r hr => by simp [getAnalysis, EngineState.empty] at hr)

/-- C4: `deleteDataset` removes the dataset's analysis records and all of its
conversation turns in the same step: afterwards no stored analysis record and
no stored turn references the deleted dataset id, `getAnalysis` finds
nothing, and the dataset's turn log is empty. -/
theorem deleteDataset_cascades (s : EngineState) (d : Nat) :
    (∀ r ∈ (deleteDataset s d).analyses, r.dataset_id ≠ d) ∧
    (∀ t ∈ (deleteDataset s d).turns, t.dataset_id ≠ d) ∧
    getAnalysis (deleteDataset s d) d = none ∧
    turnsFor (deleteDataset s d) d = [] := by
  refine ⟨?_, ?_, ?_, ?_⟩
  · intro r hr
    have := (List.mem_filter.mp hr).2
    simpa using this
  · intro t ht
    have := (List.mem_filter.mp ht).2
    simpa using this
  · apply List.find?_eq_none.mpr
    intro r hr
    have := (List.mem_filter.mp hr).2
    simpa using this
  · apply List.filter_eq_nil_iff.mpr
    intro t ht
    have := (List.mem_filter.mp ht).2
    simpa using this

/-- Witness for C4: deleting dataset 7 from a concrete state holding its
analysis record and two of its turns leaves no record and no turns for it. -/
theorem deleteDataset_cascades_witness :
    getAnalysis
        (deleteDataset
          ⟨[⟨7, AnalysisStatus.ready, "r", "d", some "p", none, 2⟩],
            [⟨7, 2, "q1", "a1", 3⟩, ⟨7, 2, "q2", "a2", 4⟩]⟩ 7) 7 = none ∧
      turnsFor
        (deleteDataset
          ⟨[⟨7, AnalysisStatus.ready, "r", "d", some "p", none, 2⟩],
            [⟨7, 2, "q1", "a1", 3⟩, ⟨7, 2, "q2", "a2", 4⟩]⟩ 7) 7 = [] :=
  ⟨(deleteDataset_cascades
      ⟨[⟨7, AnalysisStatus.ready, "r", "d", some "p", none, 2⟩],
        [⟨7, 2, "q1", "a1", 3⟩, ⟨7, 2, "q2", "a2", 4⟩]⟩ 7).2.2.1,
    (deleteDataset_cascades
      ⟨[⟨7, AnalysisStatus.ready, "r", "d", some "p", none, 2⟩],
        [⟨7, 2, "q1", "a1", 3⟩, ⟨7, 2, "q2", "a2", 4⟩]⟩ 7).2.2.2⟩

/-- C6: when the language-model backend fails both the initial call and the
single internal retry, the dataset's new active `InsightRecord` has status
`failed` with the provider error captured and no insights payload set, and
`getAnalysis` reflects exactly that record. -/
theorem runAnalysis_double_failure (s : EngineState) (d : Nat)
    (raw desc : String) (now : Nat) (e1 e2 : String) :
    getAnalysis (runAnalysis s d raw desc now (Except.error e1) (Except.error e2)) d =
      some ⟨d, AnalysisStatus.failed, raw, desc, none, some e2, now⟩ := by
  simp [getAnalysis, runAnalysis, analysisResult, synthesize]

/-- C8: under the per-dataset execution lock, a second `runAnalysis` request
arriving while one is in flight is rejected with `AnalysisInProgressError`
and writes nothing; and for either interleaving of two concurrent requests
(either client may arrive first), exactly one terminal record is produced and
the late client is rejected exactly once, never silently duplicated. -/
theorem concurrent_runAnalysis_one_terminal :
    (∀ (st : AnalysisLock) (c : Nat), st.holder.isSome →
      (lockStep st (RunEvent.start c)).holder = st.holder ∧
      (lockStep st (RunEvent.start c)).terminal = st.terminal ∧
      (lockStep st (RunEvent.start c)).rejected = c :: st.rejected) ∧
    (∀ (a b : Nat) (outcome : AnalysisStatus),
      (lockRun [RunEvent.start a, RunEvent.start b,
          RunEvent.finish a outcome]).terminal = [outcome] ∧
      (lockRun [RunEvent.start a, RunEvent.start b,
          RunEvent.finish a outcome]).rejected = [b]) := by
  constructor
  · intro st c hs
    match h : st.holder with
    | none => rw [h] at hs; simp at hs
    | some x => simp [lockStep, h]
  · intro a b outcome
    simp [lockRun, lockStep, AnalysisLock.idle]

/-- Witness for C8: a concrete in-flight lock state rejects the second
request, and the concrete two-client race produces one terminal record. -/
theorem concurrent_runAnalysis_one_terminal_witness :
    (lockStep ⟨some 0, [], []⟩ (RunEvent.start 1)).terminal = [] ∧
      (lockRun [RunEvent.start 0, RunEvent.start 1,
          RunEvent.finish 0 AnalysisStatus.ready]).terminal = [AnalysisStatus.ready] :=
  ⟨(concurrent_runAnalysis_one_terminal.1 ⟨some 0, [], []⟩ 1 (by decide)).2.1,
    (concurrent_runAnalysis_one_terminal.2 0 1 AnalysisStatus.ready).1⟩

/-- C9: every guarded section of the insights payload is independently
optional in the `AnalyticsDashboard` consumer: for every payload — in
particular with any sections absent — rendering is a total function whose
output contains a guarded section exactly when that section's payload
property is (present and) truthy, so an absent section is skipped rather
than an error. -/
theorem dashboard_sections_independently_optional (fa : FileAnalytics) :
    (Rendered.revenue ∈ AnalyticsDashboard (some fa) ↔
      (jsTruthy fa.total_revenue || jsTruthy fa.sales_metrics) = true) ∧
    (Rendered.customers ∈ AnalyticsDashboard (some fa) ↔
      jsTruthy fa.top_customers = true) ∧
    (Rendered.products ∈ AnalyticsDashboard (some fa) ↔
      jsTruthy fa.top_products = true) ∧
    (Rendered.region ∈ AnalyticsDashboard (some fa) ↔
      jsTruthy fa.regional_performance = true) ∧
    (Rendered.salesPerformance ∈ AnalyticsDashboard (some fa) ↔
      jsTruthy fa.top_sales_reps = true) ∧
    Rendered.aiGeneratedInsights ∈ AnalyticsDashboard (some fa) := by
  cases h1 : jsTruthy fa.total_revenue || jsTruthy fa.sales_metrics <;>
    cases h2 : jsTruthy fa.top_customers <;>
    cases h3 : jsTruthy fa.top_products <;>
    cases h4 : jsTruthy fa.regional_performance <;>
    cases h5 : jsTruthy fa.top_sales_reps <;>
    simp [AnalyticsDashboard, h1, h2, h3, h4, h5]

/-- C10: the upload proxy `POST` handler returns 401 `Unauthorized` whenever
the request has no authorization header, 400 `No file uploaded` whenever the
form data holds no `file` entry, in both cases without forwarding anything to
the backend; and every other thrown error — form-data parsing, the `fetch`
itself, a non-ok backend status, or body decoding — is returned as a 500
carrying the error's message. -/
theorem uploadPOST_error_handling :
    (∀ (fd : Except String (Option JsValue)) (be : Except String BackendResult),
      uploadPOST none fd be = (⟨401, RespBody.errorObj "Unauthorized"⟩, false)) ∧
    (∀ (auth : Option String) (be : Except String BackendResult),
      tokenTruthy auth = true →
      uploadPOST auth (Except.ok none) be =
        (⟨400, RespBody.errorObj "No file uploaded"⟩, false)) ∧
    (∀ (auth : Option String) (e : String) (be : Except String BackendResult),
      tokenTruthy auth = true →
      uploadPOST auth (Except.error e) be = (⟨500, RespBody.errorObj e⟩, false)) ∧
    (∀ (auth : Option String) (f : JsValue) (e : String),
      tokenTruthy auth = true → f.truthy = true →
      uploadPOST auth (Except.ok (some f)) (Except.error e) =
        (⟨500, RespBody.errorObj e⟩, true)) ∧
    (∀ (auth : Option String) (f : JsValue) (r : BackendResult),
      tokenTruthy auth = true → f.truthy = true → r.ok = false →
      uploadPOST auth (Except.ok (some f)) (Except.ok r) =
        (⟨500, RespBody.errorObj (httpErrorMsg r.status)⟩, true)) ∧
    (∀ (auth : Option String) (f : JsValue) (e : String) (ok : Bool) (st : Nat),
      tokenTruthy auth = true → f.truthy = true → ok = true →
      uploadPOST auth (Except.ok (some f)) (Except.ok ⟨ok, st, Except.error e⟩) =
        (⟨500, RespBody.errorObj e⟩, true)) := by
  refine ⟨?_, ?_, ?_, ?_, ?_, ?_⟩
  · intro fd be
    simp [uploadPOST, tokenTruthy]
  · intro auth be h
    simp [uploadPOST, h, jsTruthy]
  · intro auth e be h
    simp [uploadPOST, h]
  · intro auth f e h hf
    simp [uploadPOST, h, jsTruthy, hf]
  · intro auth f r h hf hr
    simp [uploadPOST, h, jsTruthy, hf, hr]
  · intro auth f e ok st h hf hok
    subst hok
    simp [uploadPOST, h, jsTruthy, hf]

/-- Witness for C10: the handler evaluated at concrete requests — a missing
header, a missing file entry, and a backend fetch failure. -/
theorem uploadPOST_error_handling_witness :
    uploadPOST none (Except.ok (some ⟨true⟩)) (Except.error "boom") =
      (⟨401, RespBody.errorObj "Unauthorized"⟩, false) ∧
    uploadPOST (some "Bearer jwt") (Except.ok none) (Except.error "boom") =
      (⟨400, RespBody.errorObj "No file uploaded"⟩, false) ∧
    uploadPOST (some "Bearer jwt") (Except.ok (some ⟨true⟩)) (Except.error "boom") =
      (⟨500, RespBody.errorObj "boom"⟩, true) :=
  ⟨uploadPOST_error_handling.1 (Except.ok (some ⟨true⟩)) (Except.error "boom"),
    uploadPOST_error_handling.2.1 (some "Bearer jwt") (Except.error "boom") (by decide),
    uploadPOST_error_handling.2.2.2.1 (some "Bearer jwt") ⟨true⟩ "boom"
      (by decide) rfl⟩

/-- Helper: the lexical order on character lists is total. -/
theorem charListLE_total (as bs : List Char) :
    (charListLE as bs || charListLE bs as) = true := by
  induction as generalizing bs with
  | nil => simp [charListLE]
  | cons a as ih =>
    cases bs with
    | nil => simp [charListLE]
    | cons b bs =>
      by_cases hab : a < b
      · simp [charListLE, hab]
      · by_cases hba : b < a
        · simp [charListLE, hab, hba]
        · simpa [charListLE, hab, hba] using ih bs

/-- Helper: the lexical order on character lists is transitive. -/
theorem charListLE_trans (as bs cs : List Char)
    (h1 : charListLE as bs = true) (h2 : charListLE bs cs = true) :
    charListLE as cs = true := by
  induction as generalizing bs cs with
  | nil => simp [charListLE]
  | cons a as ih =>
    cases bs with
    | nil => simp [charListLE] at h1
    | cons b bs =>
      cases cs with
      | nil => simp [charListLE] at h2
      | cons c cs =>
        by_cases hab : a < b
        · by_cases hbc : b < c
          · simp [charListLE, lt_trans hab hbc]
          · by_cases hcb : c < b
            · simp [charListLE, hbc, hcb] at h2
            · have hbceq : b = c := le_antisymm (not_lt.mp hcb) (not_lt.mp hbc)
              subst hbceq
              simp [charListLE, hab]
        · by_cases hba : b < a
          · simp [charListLE, hab, hba] at h1
          · have habeq : a = b := le_antisymm (not_lt.mp hba) (not_lt.mp hab)
            subst habeq
            simp only [charListLE, hab, hba, if_neg, if_false] at h1
            by_cases hac : a < c
            · simp [charListLE, hac]
            · by_cases hca : c < a
              · simp [charListLE, hac, hca] at h2
              · simp only [charListLE, hac, hca, if_neg, if_false] at h2 ⊢
                exact ih bs cs h1 h2

/-- Helper: the top-N ranking order is total. -/
theorem rankLE_total (a b : String × Int) :
    (rankLE a b || rankLE b a) = true := by
  rcases lt_trichotomy a.snd b.snd with h | h | h
  · simp [rankLE, h]
  · have h1 : ¬ b.snd < a.snd := by omega
    have h2 : ¬ a.snd < b.snd := by omega
    simp only [rankLE, h, strLE]
    simp [h1, h2, charListLE_total a.fst.data b.fst.data]
  · simp [rankLE, h]

/-- Helper: the top-N ranking order is transitive. -/
theorem rankLE_trans (a b c : String × Int)
    (h1 : rankLE a b = true) (h2 : rankLE b c = true) :
    rankLE a c = true := by
  simp only [rankLE, strLE, Bool.or_eq_true, decide_eq_true_eq,
    Bool.and_eq_true, beq_iff_eq] at h1 h2 ⊢
  rcases h1 with h1 | ⟨h1e, h1s⟩ <;> rcases h2 with h2 | ⟨h2e, h2s⟩
  · exact Or.inl (by omega)
  · exact Or.inl (by omega)
  · exact Or.inl (by omega)
  · exact Or.inr ⟨by omega, charListLE_trans _ _ _ h1s h2s⟩

/-- C5: the top-N-entities section groups rows by the entity key (every
output entry carries the summed metric of its key, and its key is one of the
dataset's keys), ranks output entries by summed metric in descending order
with ties broken by lexical order of the key, and on the three-row scenario
dataset the top-region-by-amount result is `[B:300, A:150]`. -/
theorem topEntities_ranking (n : Nat) (rows : List (String × Int)) :
    List.Pairwise (fun a b => rankLE a b = true) (topEntities n rows) ∧
    (∀ p ∈ topEntities n rows,
      p.snd = groupSum rows p.fst ∧ p.fst ∈ groupKeys rows) ∧
    topEntities 5 [("A", 100), ("B", 300), ("A", 50)] = [("B", 300), ("A", 150)] := by
  refine ⟨?_, ?_, by decide⟩
  · haveI : IsTotal (String × Int) (fun a b => rankLE a b = true) :=
      ⟨fun a b => by
        rcases (by simpa using rankLE_total a b :
            rankLE a b = true ∨ rankLE b a = true) with h | h
        · exact Or.inl h
        · exact Or.inr h⟩
    haveI : IsTrans (String × Int) (fun a b => rankLE a b = true) :=
      ⟨fun a b c => rankLE_trans a b c⟩
    exact List.Pairwise.sublist (List.take_sublist n _)
      (List.sorted_insertionSort _ _)
  · intro p hp
    have hp1 : p ∈ List.insertionSort (fun a b => rankLE a b = true)
        ((groupKeys rows).map fun k => (k, groupSum rows k)) :=
      List.mem_of_mem_take hp
    have hp2 : p ∈ (groupKeys rows).map fun k => (k, groupSum rows k) :=
      (List.perm_insertionSort _ _).subset hp1
    obtain ⟨k, hk, hpk⟩ := List.mem_map.mp hp2
    constructor
    · rw [← hpk]
    · rw [← hpk]; exact hk

/-- Witness for C5: the theorem applied to the scenario dataset's top entry,
whose value is the summed metric of its key. -/
theorem topEntities_ranking_witness :
    (("B", (300 : Int)).snd =
        groupSum [("A", 100), ("B", 300), ("A", 50)] ("B", (300 : Int)).fst ∧
      ("B", (300 : Int)).fst ∈ groupKeys [("A", 100), ("B", 300), ("A", 50)]) :=
  (topEntities_ranking 5 [("A", 100), ("B", 300), ("A", 50)]).2.1
    ("B", 300) (by decide)

/-- Helper: eviction removes exactly the first `k` stored turns of the
dataset. -/
theorem filter_removeOldest (d : Nat) (l : List ConversationTurn) (k : Nat) :
    (removeOldest d l k).filter (fun t => t.dataset_id == d) =
      (l.filter fun t => t.dataset_id == d).drop k := by
  induction l generalizing k with
  | nil => cases k <;> simp [removeOldest]
  | cons t ts ih =>
    cases k with
    | zero => simp [removeOldest]
    | succ k =>
      cases h : (t.dataset_id == d) with
      | true =>
        simp [removeOldest, List.filter_cons, h, ih, List.drop_succ_cons]
      | false =>
        simp [removeOldest, List.filter_cons, h, ih]

/-- Helper: eviction for one dataset leaves every other dataset's turns
untouched. -/
theorem filter_removeOldest_ne (d d' : Nat) (hne : d ≠ d')
    (l : List ConversationTurn) (k : Nat) :
    (removeOldest d l k).filter (fun t => t.dataset_id == d') =
      l.filter (fun t => t.dataset_id == d') := by
  induction l generalizing k with
  | nil => cases k <;> simp [removeOldest]
  | cons t ts ih =>
    cases k with
    | zero => simp [removeOldest]
    | succ k =>
      cases h : (t.dataset_id == d) with
      | true =>
        have hid : t.dataset_id = d := by simpa using h
        have h' : (t.dataset_id == d') = false := by
          simp [hid]
          exact hne
        simp [removeOldest, List.filter_cons, h, h', ih]
      | false =>
        cases h' : (t.dataset_id == d') <;>
          simp [removeOldest, List.filter_cons, h, h', ih]

/-- Helper: eviction only removes stored turns. -/
theorem removeOldest_sublist (d : Nat) (l : List ConversationTurn) (k : Nat) :
    (removeOldest d l k).Sublist l := by
  induction l generalizing k with
  | nil => cases k <;> simp [removeOldest]
  | cons t ts ih =>
    cases k with
    | zero => simp [removeOldest]
    | succ k =>
      cases h : (t.dataset_id == d) with
      | true =>
        simpa [removeOldest, h] using List.Sublist.cons t (ih k)
      | false =>
        simpa [removeOldest, h] using List.Sublist.cons₂ t (ih (k + 1))

/-- Helper: the write-time cap enforcement only removes stored turns. -/
theorem enforceCap_sublist (turns : List ConversationTurn) (d : Nat) :
    (enforceCap turns d).Sublist turns := by
  unfold enforceCap
  split
  · exact List.Sublist.refl _
  · exact removeOldest_sublist _ _ _

/-- Helper: after cap enforcement the dataset's stored turn count is at most
the cap. -/
theorem enforceCap_count_le (turns : List ConversationTurn) (d : Nat) :
    ((enforceCap turns d).filter fun t => t.dataset_id == d).length ≤
      STORAGE_CAP := by
  unfold enforceCap
  split
  · assumption
  · rw [filter_removeOldest, List.length_drop]
    omega

/-- Helper: cap enforcement for one dataset leaves every other dataset's
turns untouched. -/
theorem enforceCap_filter_ne (turns : List ConversationTurn) (d d' : Nat)
    (hne : d ≠ d') :
    ((enforceCap turns d).filter fun t => t.dataset_id == d') =
      turns.filter (fun t => t.dataset_id == d') := by
  unfold enforceCap
  split
  · rfl
  · exact filter_removeOldest_ne d d' hne _ _

/-- Helper: on a successful `answerQuestion`, the new state's turn log is the
old log plus the new turn, cap-enforced; the new turn belongs to the dataset
and carries the call's timestamp. -/
theorem answerQuestion_ok_spec (s : EngineState) (d : Nat) (q : String)
    (now : Nat) (llm : Except String String) (s' : EngineState)
    (turn : ConversationTurn)
    (h : answerQuestion s d q now llm = (s', Except.ok turn)) :
    s'.turns = enforceCap (s.turns ++ [turn]) d ∧
      turn.dataset_id = d ∧ turn.created_at = now ∧ s'.analyses = s.analyses := by
  cases hA : getAnalysis s d with
  | none => simp [answerQuestion, hA] at h
  | some rec =>
    by_cases hst : rec.status = AnalysisStatus.ready
    · cases llm with
      | error e => simp [answerQuestion, hA, hst] at h
      | ok ans =>
        simp only [answerQuestion, hA, hst, if_true, Prod.mk.injEq] at h
        obtain ⟨h1, h2⟩ := h
        have h2' : turn = ⟨d, rec.created_at, q, ans, now⟩ := by
          cases h2; rfl
        subst h2'
        refine ⟨?_, rfl, rfl, ?_⟩ <;> rw [← h1]
    · simp [answerQuestion, hA, hst] at h

/-- Helper: `answerQuestion` either leaves the turn log unchanged (on any
failure) or appends the new turn and enforces the cap. -/
theorem answerQuestion_turns_cases (s : EngineState) (d : Nat) (q : String)
    (now : Nat) (llm : Except String String) :
    ((answerQuestion s d q now llm).1.turns = s.turns ∧
      (answerQuestion s d q now llm).1.analyses = s.analyses) ∨
    ∃ turn : ConversationTurn, turn.dataset_id = d ∧ turn.created_at = now ∧
      (answerQuestion s d q now llm).1.turns = enforceCap (s.turns ++ [turn]) d ∧
      (answerQuestion s d q now llm).1.analyses = s.analyses := by
  cases hA : getAnalysis s d with
  | none => exact Or.inl (by simp [answerQuestion, hA])
  | some rec =>
    by_cases hst : rec.status = AnalysisStatus.ready
    · cases llm with
      | error e => exact Or.inl (by simp [answerQuestion, hA, hst])
      | ok ans =>
        refine Or.inr ⟨⟨d, rec.created_at, q, ans, now⟩, rfl, rfl, ?_, ?_⟩ <;>
          simp [answerQuestion, hA, hst]
    · exact Or.inl (by simp [answerQuestion, hA, hst])

/-- Helper: in every reachable state, every dataset's stored turn count is at
most the cap. -/
theorem reachable_cap {now : Nat} {s : EngineState} (h : Reachable now s) :
    ∀ d, (turnsFor s d).length ≤ STORAGE_CAP := by
  induction h with
  | init => intro d; simp [turnsFor, EngineState.empty, STORAGE_CAP]
  | run now' d' raw desc a1 a2 hr hle ih =>
    intro d
    simpa [turnsFor, runAnalysis] using ih d
  | answer now' d' q llm hr hle ih =>
    rename_i now₀ s₀
    intro d
    rcases answerQuestion_turns_cases s₀ d' q now' llm with
      ⟨hT, _⟩ | ⟨turn, hid, hca, hT, _⟩
    · simpa [turnsFor, hT] using ih d
    · by_cases hd : d' = d
      · subst hd
        simpa [turnsFor, hT] using enforceCap_count_le (s₀.turns ++ [turn]) d'
      · rw [turnsFor, hT, enforceCap_filter_ne _ _ _ hd, List.filter_append]
        have hturn : (turn.dataset_id == d) = false := by
          simp [hid]
          exact hd
        simpa [List.filter_cons, hturn] using ih d
  | delete d' hr ih =>
    rename_i now₀ s₀
    intro d
    have hsub : (turnsFor (deleteDataset s₀ d') d).Sublist (turnsFor s₀ d) :=
      List.Sublist.filter _ (List.filter_sublist _)
    exact le_trans hsub.length_le (ih d)
  | purge now' hr hle ih =>
    rename_i now₀ s₀
    intro d
    have hsub : (turnsFor (purgeExpired s₀ now') d).Sublist (turnsFor s₀ d) :=
      List.Sublist.filter _ (List.filter_sublist _)
    exact le_trans hsub.length_le (ih d)

/-- Helper: in every reachable state, every stored turn was created no later
than the clock, and every dataset's stored turn log is ordered by
`created_at` (oldest first). -/
theorem reachable_sorted {now : Nat} {s : EngineState} (h : Reachable now s) :
    (∀ t ∈ s.turns, t.created_at ≤ now) ∧
      ∀ d, List.Pairwise (fun a b : ConversationTurn =>
        a.created_at ≤ b.created_at) (turnsFor s d) := by
  induction h with
  | init => exact ⟨by simp [EngineState.empty], by simp [turnsFor, EngineState.empty]⟩
  | run now' d' raw desc a1 a2 hr hle ih =>
    refine ⟨?_, ?_⟩
    · intro t ht
      exact le_trans (ih.1 t ht) hle
    · intro d
      simpa [turnsFor, runAnalysis] using ih.2 d
  | answer now' d' q llm hr hle ih =>
    rename_i now₀ s₀
    rcases answerQuestion_turns_cases s₀ d' q now' llm with
      ⟨hT, _⟩ | ⟨turn, hid, hca, hT, _⟩
    · refine ⟨?_, ?_⟩
      · intro t ht
        rw [hT] at ht
        exact le_trans (ih.1 t ht) hle
      · intro d
        simpa [turnsFor, hT] using ih.2 d
    · refine ⟨?_, ?_⟩
      · intro t ht
        rw [hT] at ht
        have ht' := (enforceCap_sublist _ _).subset ht
        rcases List.mem_append.mp ht' with hmem | hmem
        · exact le_trans (ih.1 t hmem) hle
        · rw [List.mem_singleton.mp hmem, hca]
      · intro d
        have hPW : List.Pairwise (fun a b : ConversationTurn =>
            a.created_at ≤ b.created_at)
            (List.filter (fun t => t.dataset_id == d) (s₀.turns ++ [turn])) := by
          rw [List.filter_append]
          refine List.pairwise_append.mpr ⟨ih.2 d, ?_, ?_⟩
          · exact List.Pairwise.filter _ (by simp)
          · intro a ha b hb
            have hb' : b = turn :=
              List.mem_singleton.mp ((List.filter_sublist _).subset hb)
            have ha' : a ∈ s₀.turns := (List.filter_sublist _).subset ha
            rw [hb', hca]
            exact le_trans (ih.1 a ha') hle
        have hsub : (turnsFor (answerQuestion s₀ d' q now' llm).1 d).Sublist
            (List.filter (fun t => t.dataset_id == d) (s₀.turns ++ [turn])) := by
          rw [turnsFor, hT]
          exact List.Sublist.filter _ (enforceCap_sublist _ _)
        exact hPW.sublist hsub
  | delete d' hr ih =>
    refine ⟨?_, ?_⟩
    · intro t ht
      exact ih.1 t ((List.filter_sublist _).subset ht)
    · intro d
      exact (ih.2 d).sublist (List.Sublist.filter _ (List.filter_sublist _))
  | purge now' hr hle ih =>
    refine ⟨?_, ?_⟩
    · intro t ht
      exact le_trans (ih.1 t ((List.filter_sublist _).subset ht)) hle
    · intro d
      exact (ih.2 d).sublist (List.Sublist.filter _ (List.filter_sublist _))

/-- Helper: the record produced by an analysis run belongs to its dataset. -/
theorem analysisResult_dataset_id (d : Nat) (raw desc : String) (now : Nat)
    (a1 a2 : Except String String) :
    (analysisResult d raw desc now a1 a2).dataset_id = d := by
  unfold analysisResult
  cases synthesize a1 a2 <;> rfl

/-- Helper: after removing a dataset's records, none are left for it. -/
theorem filter_not_id_self (l : List InsightRecord) (d : Nat) :
    ((l.filter fun r => !(r.dataset_id == d)).filter
      fun r => r.dataset_id == d) = [] := by
  apply List.filter_eq_nil_iff.mpr
  intro a ha
  have := (List.mem_filter.mp ha).2
  simp at this
  simp [this]

/-- Helper: after `runAnalysis`, the dataset's stored analysis records are
exactly the one new record. -/
theorem runAnalysis_filter_self (s : EngineState) (d : Nat)
    (raw desc : String) (now : Nat) (a1 a2 : Except String String) :
    ((runAnalysis s d raw desc now a1 a2).analyses.filter
      fun r => r.dataset_id == d) = [analysisResult d raw desc now a1 a2] := by
  simp only [runAnalysis, List.filter_cons, analysisResult_dataset_id,
    beq_self_eq_true, if_true, filter_not_id_self]

/-- Helper: in every reachable state, every dataset has at most one stored
analysis record. -/
theorem reachable_unique {now : Nat} {s : EngineState} (h : Reachable now s) :
    ∀ d, ((s.analyses.filter fun r => r.dataset_id == d)).length ≤ 1 := by
  induction h with
  | init => intro d; simp [EngineState.empty]
  | run now' d' raw desc a1 a2 hr hle ih =>
    rename_i now₀ s₀
    intro d
    by_cases hd : d' = d
    · subst hd
      rw [runAnalysis_filter_self]
      simp
    · have hhead : ((analysisResult d' raw desc now' a1 a2).dataset_id == d) =
          false := by
        simp [analysisResult_dataset_id]
        exact hd
      have hsub : (((s₀.analyses.filter fun r => !(r.dataset_id == d')).filter
          fun r => r.dataset_id == d)).Sublist
          (s₀.analyses.filter fun r => r.dataset_id == d) :=
        List.Sublist.filter _ (List.filter_sublist _)
      rw [runAnalysis, List.filter_cons]
      simp only [hhead, if_false]
      exact le_trans hsub.length_le (ih d)
  | answer now' d' q llm hr hle ih =>
    rename_i now₀ s₀
    intro d
    rcases answerQuestion_turns_cases s₀ d' q now' llm with
      ⟨_, hA⟩ | ⟨turn, _, _, _, hA⟩ <;> · rw [hA]; exact ih d
  | delete d' hr ih =>
    rename_i now₀ s₀
    intro d
    have hsub : (((s₀.analyses.filter fun r => !(r.dataset_id == d')).filter
        fun r => r.dataset_id == d)).Sublist
        (s₀.analyses.filter fun r => r.dataset_id == d) :=
      List.Sublist.filter _ (List.filter_sublist _)
    exact le_trans hsub.length_le (ih d)
  | purge now' hr hle ih =>
    intro d
    exact ih d

/-- C7: in every reachable engine state each dataset has at most one stored
analysis record; immediately after a `runAnalysis` the dataset has exactly
one (the run supersedes, not appends); and the status history of every run
follows the legal transitions pending→processing→ready or
pending→processing→failed. -/
theorem insightRecord_unique_and_transitions :
    (∀ now s, Reachable now s → ∀ d,
      ((s.analyses.filter fun r => r.dataset_id == d)).length ≤ 1) ∧
    (∀ (s : EngineState) (d : Nat) (raw desc : String) (now : Nat)
        (a1 a2 : Except String String),
      (((runAnalysis s d raw desc now a1 a2).analyses.filter
        fun r => r.dataset_id == d)).length = 1) ∧
    (∀ a1 a2 : Except String String,
      List.Chain' StatusStep (runStatusTrace a1 a2)) := by
  refine ⟨fun now s h => reachable_unique h, ?_, ?_⟩
  · intro s d raw desc now a1 a2
    rw [runAnalysis_filter_self]
    rfl
  · intro a1 a2
    cases a1 with
    | ok t =>
      exact List.Chain'.cons StatusStep.start
        (List.Chain'.cons StatusStep.succeed (List.chain'_singleton _))
    | error e1 =>
      cases a2 with
      | ok t =>
        exact List.Chain'.cons StatusStep.start
          (List.Chain'.cons StatusStep.succeed (List.chain'_singleton _))
      | error e2 =>
        exact List.Chain'.cons StatusStep.start
          (List.Chain'.cons StatusStep.fail (List.chain'_singleton _))

/-- Witness for C7: the invariant at the empty reachable state, and the
exactly-one-record property after a concrete run. -/
theorem insightRecord_unique_and_transitions_witness :
    ((EngineState.empty.analyses.filter fun r => r.dataset_id == 3)).length ≤ 1 ∧
      (((runAnalysis EngineState.empty 3 "raw" "desc" 1 (Except.ok "x")
          (Except.ok "y")).analyses.filter
        fun r => r.dataset_id == 3)).length = 1 :=
  ⟨insightRecord_unique_and_transitions.1 0 EngineState.empty Reachable.init 3,
    insightRecord_unique_and_transitions.2.1 EngineState.empty 3 "raw" "desc" 1
      (Except.ok "x") (Except.ok "y")⟩

/-- Helper: in a `Pairwise`-ordered list, every element dropped by `drop k`
relates to every element kept by it. -/
theorem pairwise_mem_drop {α : Type} {R : α → α → Prop} {F : List α}
    (hPW : List.Pairwise R F) (k : Nat) {a b : α}
    (ha : a ∈ F) (hna : a ∉ F.drop k) (hb : b ∈ F.drop k) : R a b := by
  have hsplit := List.take_append_drop k F
  have haTake : a ∈ F.take k := by
    rcases List.mem_append.mp (by rw [hsplit]; exact ha) with h | h
    · exact h
    · exact absurd h hna
  have hparts := List.pairwise_append.mp (by rw [hsplit]; exact hPW)
  exact hparts.2.2 a haTake b hb

/-- C1: in every reachable engine state every dataset's stored turn count is
at most the cap of 100 — the cap holds after any sequence of operations, in
particular when the periodic purge never runs — and each successful
`answerQuestion` write keeps the dataset at or below the cap, evicting (as a
side effect of that same write) only turns that are no newer than every turn
it keeps, i.e. the oldest by `created_at`, FIFO. -/
theorem conversation_cap_invariant :
    ∀ now s, Reachable now s →
      (∀ d, (turnsFor s d).length ≤ STORAGE_CAP) ∧
      (∀ (d : Nat) (q : String) (now' : Nat) (llm : Except String String)
          (s' : EngineState) (turn : ConversationTurn), now ≤ now' →
        answerQuestion s d q now' llm = (s', Except.ok turn) →
        (turnsFor s' d).length ≤ STORAGE_CAP ∧
        ∀ tOld ∈ turnsFor s d, tOld ∉ s'.turns →
          ∀ tKept ∈ turnsFor s' d, tOld.created_at ≤ tKept.created_at) := by
  intro now s h
  refine ⟨reachable_cap h, ?_⟩
  intro d q now' llm s' turn hle heq
  obtain ⟨hT, hid, hca, _⟩ := answerQuestion_ok_spec s d q now' llm s' turn heq
  have hS := reachable_sorted h
  have hPW : List.Pairwise (fun a b : ConversationTurn =>
      a.created_at ≤ b.created_at)
      (List.filter (fun t => t.dataset_id == d) (s.turns ++ [turn])) := by
    rw [List.filter_append]
    refine List.pairwise_append.mpr ⟨hS.2 d, ?_, ?_⟩
    · exact List.Pairwise.filter _ (by simp)
    · intro a ha b hb
      have hb' : b = turn :=
        List.mem_singleton.mp ((List.filter_sublist _).subset hb)
      have ha' : a ∈ s.turns := (List.filter_sublist _).subset ha
      rw [hb', hca]
      exact le_trans (hS.1 a ha') hle
  refine ⟨?_, ?_⟩
  · rw [turnsFor, hT]
    exact enforceCap_count_le _ _
  · intro tOld hOld hNot tKept hKept
    by_cases hsz : (List.filter (fun t => t.dataset_id == d)
        (s.turns ++ [turn])).length ≤ STORAGE_CAP
    · exfalso
      rw [enforceCap, if_pos hsz] at hT
      have : tOld ∈ s'.turns := by
        rw [hT]
        exact List.mem_append_left _ ((List.filter_sublist _).subset hOld)
      exact hNot this
    · rw [enforceCap, if_neg hsz] at hT
      have hdrop : turnsFor s' d =
          (List.filter (fun t => t.dataset_id == d) (s.turns ++ [turn])).drop
            ((List.filter (fun t => t.dataset_id == d)
              (s.turns ++ [turn])).length - STORAGE_CAP) := by
        rw [turnsFor, hT, filter_removeOldest]
      have hOld' : tOld ∈ List.filter (fun t => t.dataset_id == d)
          (s.turns ++ [turn]) := by
        rw [List.filter_append]
        exact List.mem_append_left _ hOld
      have hNotDrop : tOld ∉ turnsFor s' d := by
        intro contra
        exact hNot ((List.filter_sublist _).subset contra)
      rw [hdrop] at hNotDrop hKept
      exact pairwise_mem_drop hPW _ hOld' hNotDrop hKept

/-- Witness for C1: the theorem applied to a concrete reachable state (one
completed analysis run) and one concrete successful `answerQuestion` write:
the dataset's stored turn count stays at or below the cap. -/
theorem conversation_cap_invariant_witness :
    (turnsFor (⟨[⟨0, AnalysisStatus.ready, "", "", some "p", none, 0⟩],
        [⟨0, 0, "q", "a", 1⟩]⟩ : EngineState) 0).length ≤ STORAGE_CAP :=
  ((conversation_cap_invariant 0
      (runAnalysis EngineState.empty 0 "" "" 0 (Except.ok "p") (Except.ok "p"))
      (Reachable.run 0 0 "" "" (Except.ok "p") (Except.ok "p") Reachable.init
        (Nat.le_refl 0))).2 0 "q" 1 (Except.ok "a")
      ⟨[⟨0, AnalysisStatus.ready, "", "", some "p", none, 0⟩],
        [⟨0, 0, "q", "a", 1⟩]⟩
      ⟨0, 0, "q", "a", 1⟩ (Nat.zero_le 1) rfl).1

end AIAnalyst
